import Mathlib

/-!
Verification of the Offteam backup tool (Rust sources `src/main.rs`,
`src/config.rs`, `src/systemd.rs`) against its natural-language
specification.  The Rust code is shallowly embedded: external effects
(process spawning, filesystem calls, configuration persistence, clock
reads) are supplied by an explicit environment oracle, and each embedded
operation additionally returns the trace of external actions it performed,
so that statements such as "no process is spawned" or "the probe uses a
retry budget of 2" become statements about the trace.
-/

namespace OBT

/-- Result of one `Command::new("sh").arg("-c").arg(cmd).output()` call:
either the process spawned (with its exit status and captured
stdout/stderr), or spawning itself failed with an OS error message. -/
inductive SpawnResult where
  | spawned (exitZero : Bool) (stdoutStr : String) (stderrStr : String)
  | spawnErr (msg : String)
deriving DecidableEq, Repr

/-- Observable events of the executor loop: one `invoke k` per spawn of the
command (attempt number `k`, 1-based), and one `sleep5` per fixed 5-second
inter-attempt delay (`std::thread::sleep(Duration::from_secs(5))`). -/
inductive ExecEvent where
  | invoke (attempt : Nat)
  | sleep5
deriving DecidableEq, Repr

/-- Predicate `subAt pat s`: the character list `pat` occurs at the head of `s`. -/
def subAt : List Char → List Char → Bool
  | [], _ => true
  | _ :: _, [] => false
  | p :: ps, c :: cs => p == c && subAt ps cs

/-- Predicate `hasSub pat s`: `pat` occurs as a contiguous sublist of `s`. -/
def hasSub (pat : List Char) : List Char → Bool
  | [] => subAt pat []
  | c :: cs => subAt pat (c :: cs) || hasSub pat cs

/-- Model of Rust `str::contains` on string slices (substring search),
used by the executor for `cmd.contains("git pull")` (main.rs:190). -/
def strContains (s pat : String) : Bool :=
  hasSub pat.data s.data

/-- The fallback error message of main.rs:221 (`"Неизвестная ошибка"`),
used when no attempt ever recorded an error. -/
def unknownErr : String := "Неизвестная ошибка"

/-- The message head of main.rs:200/210
(`format!("Ошибка при выполнении команды: \x7b\x7d", error)`). -/
def errHead : String := "Ошибка при выполнении команды: "

/-- One pass of the retry loop of `execute_command_with_retry`
(main.rs:187-219).  `run` maps an attempt number to the outcome of that
attempt's spawn; `attempt` is the current 1-based attempt number,
`remaining` the number of attempts still allowed (loop counter),
`lastErr` the `last_error` variable.  Returns the Rust function's result
plus the list of observable events. -/
def execFrom (cmd : String) (run : Nat → SpawnResult) (max_retries : Nat) :
    Nat → Nat → Option String → Except String Unit × List ExecEvent
  | _, 0, lastErr => (.error (lastErr.getD unknownErr), [])
  | attempt, r + 1, _ =>
    match run attempt with
    | .spawned exitZero _ stderrStr =>
      if exitZero || strContains cmd "git pull" then
        (.ok (), [.invoke attempt])
      else
        let msg := errHead ++ stderrStr
        let rest := execFrom cmd run max_retries (attempt + 1) r (some msg)
        (rest.1, .invoke attempt ::
          ((if attempt < max_retries then [.sleep5] else []) ++ rest.2))
    | .spawnErr e =>
      let msg := errHead ++ e
      let rest := execFrom cmd run max_retries (attempt + 1) r (some msg)
      (rest.1, .invoke attempt ::
        ((if attempt < max_retries then [.sleep5] else []) ++ rest.2))

/-- Embedding of `execute_command_with_retry` (main.rs:183-224).  The Rust
loop `for attempt in 1..=max_retries` starts at attempt 1 with
`max_retries` iterations allowed and `last_error = None`. -/
def execute_command_with_retry (cmd : String) (max_retries : Nat)
    (run : Nat → SpawnResult) : Except String Unit × List ExecEvent :=
  execFrom cmd run max_retries 1 max_retries none

/-- The trace left by a run of the retry loop in which every attempt
fails: starting at attempt `a` with `r` attempts left, each attempt is
invoked and is followed by the 5-second delay exactly when it is not the
final (`max_retries`-th) attempt. -/
def failTrace (max_retries : Nat) : Nat → Nat → List ExecEvent
  | _, 0 => []
  | a, r + 1 => .invoke a ::
      ((if a < max_retries then [.sleep5] else []) ++ failTrace max_retries (a + 1) r)

/-- Digit value of an ASCII character, `none` for non-digits. -/
def digitVal (ch : Char) : Option Nat :=
  if 48 ≤ ch.toNat ∧ ch.toNat ≤ 57 then some (ch.toNat - 48) else none

/-- Value of a 1- or 2-digit decimal numeral. -/
def parseNat2 : List Char → Option Nat
  | [c] => digitVal c
  | [c1, c2] => do
    let d1 ← digitVal c1
    let d2 ← digitVal c2
    pure (10 * d1 + d2)
  | _ => none

/-- Modelled library behavior: `NaiveTime::parse_from_str(s, "%H:%M")`
(main.rs:513) — an hour and a minute separated by a colon, with the
24-hour range checks chrono applies. -/
def parseHM (s : String) : Option (Nat × Nat) :=
  match s.data.splitOn (Char.ofNat 58) with
  | [h, m] =>
    match parseNat2 h, parseNat2 m with
    | some hv, some mv => if hv ≤ 23 && mv ≤ 59 then some (hv, mv) else none
    | _, _ => none
  | _ => none

/-- A wall-clock reading in the reference (Moscow) timezone, reduced to
the fields the scheduler loop inspects: hour, minute and ordinal day. -/
structure MoscowNow where
  hour : Nat
  minute : Nat
  ordinalDay : Nat
deriving DecidableEq, Repr

/-- Outcome of one invocation of the backup pipeline, as seen by the
scheduler loop. -/
inductive PipelineResult where
  | ok
  | err (msg : String)
deriving DecidableEq, Repr

/-- Observable outcome of one iteration of the daemon loop body:
whether the pipeline was invoked, the new `last_backup_day`, and the
error message logged (if the invoked pipeline failed). -/
structure DaemonStepOut where
  fired : Bool
  newLastDay : Nat
  loggedError : Option String
deriving DecidableEq, Repr

/-- The firing condition of main.rs:512-520: a backup time is configured,
parses as `%H:%M`, the current hour and minute both equal it, and the
current ordinal day differs from `last_backup_day`. -/
def schedMatch (backupTime : Option String) (now : MoscowNow) (lastDay : Nat) :
    Bool :=
  match backupTime with
  | none => false
  | some bt =>
    match parseHM bt with
    | none => false
    | some (th, tm) =>
      now.hour == th && now.minute == tm && now.ordinalDay != lastDay

/-- One iteration of the `run_daemon_mode` loop body (main.rs:508-546),
with the pipeline's outcome supplied as `res`.  On success the iteration
records the current ordinal day; on failure it logs the error and leaves
`last_backup_day` unchanged. -/
def daemonStep (backupTime : Option String) (now : MoscowNow) (lastDay : Nat)
    (res : PipelineResult) : DaemonStepOut :=
  if schedMatch backupTime now lastDay then
    match res with
    | .ok => ⟨true, now.ordinalDay, none⟩
    | .err m => ⟨true, lastDay, some m⟩
  else ⟨false, lastDay, none⟩

/-- Finitely many iterations of the daemon loop, fed by a list of
(wall-clock reading, pipeline outcome) pairs; returns the final
`last_backup_day` and one `DaemonStepOut` per iteration. -/
def daemonRun (backupTime : Option String) (lastDay : Nat) :
    List (MoscowNow × PipelineResult) → Nat × List DaemonStepOut
  | [] => (lastDay, [])
  | (now, res) :: rest =>
    let out := daemonStep backupTime now lastDay res
    let tail := daemonRun backupTime out.newLastDay rest
    (tail.1, out :: tail.2)

/-- Embedding of `BackupFrequency` (config.rs). -/
inductive BackupFrequency where
  | Daily
  | Weekly
  | Monthly
deriving DecidableEq, Repr

/-- Embedding of `Config` (config.rs): the persisted configuration
object.  `backup_frequency` is carried for completeness; the pipeline
itself does not read it. -/
structure Config where
  gitea_url : Option String
  gitea_repo : Option String
  gitea_username : Option String
  gitea_password : Option String
  backup_paths : List String
  last_backup : Option String
  backup_name : Option String
  backup_frequency : Option BackupFrequency
  backup_time : Option String
deriving DecidableEq, Repr

/-- Uppercase hexadecimal digit for a value `< 16`. -/
def hexDigit (n : Nat) : Char :=
  if n < 10 then Char.ofNat (48 + n) else Char.ofNat (55 + n)

/-- ASCII alphanumeric test (the complement of the `NON_ALPHANUMERIC`
percent-encoding set). -/
def isAlphaNum (ch : Char) : Bool :=
  (48 ≤ ch.toNat && ch.toNat ≤ 57) || (65 ≤ ch.toNat && ch.toNat ≤ 90) ||
    (97 ≤ ch.toNat && ch.toNat ≤ 122)

/-- Modelled library behavior:
`utf8_percent_encode(s, NON_ALPHANUMERIC)` (main.rs:284), at scalar-value
level (faithful for ASCII credentials): every non-alphanumeric character
becomes `%` followed by two uppercase hex digits. -/
def percentEncode (s : String) : String :=
  ⟨s.data.flatMap fun ch =>
    if isAlphaNum ch then [ch]
    else [Char.ofNat 37, hexDigit (ch.toNat / 16 % 16), hexDigit (ch.toNat % 16)]⟩

/-- The credential-bearing remote URL of main.rs:278-296, with the four
`ok_or` precondition checks, evaluated in the source's order (username,
password, URL, repository path). -/
def repoUrlOf (c : Config) : Except String String :=
  match c.gitea_username with
  | none => .error "Не настроен логин Gitea"
  | some u =>
    match c.gitea_password with
    | none => .error "Не настроен пароль Gitea"
    | some p =>
      match c.gitea_url with
      | none => .error "Не настроен URL Gitea"
      | some url =>
        match c.gitea_repo with
        | none => .error "Не настроен репозиторий Gitea"
        | some repo =>
          .ok ("https://" ++ u ++ ":" ++ percentEncode p ++ "@" ++ url ++
            "/" ++ repo ++ ".git")

/-- External actions performed by the backup pipeline: an invocation of
`execute_command_with_retry` with its retry budget, the filesystem calls,
and the configuration save. -/
inductive Action where
  | execCmd (cmd : String) (budget : Nat)
  | fsCreateDir (path : String)
  | fsWrite (path : String)
  | fsRemove (path : String)
  | cfgSave
deriving DecidableEq, Repr

/-- Mutable state threaded through the pipeline: the trace of external
actions so far, the configuration object (mutated only at the
`last_backup` update), and the `archive_info` accumulator as
(archive name, recorded byte size) pairs. -/
structure PBState where
  trace : List Action
  cfg : Config
  archives : List (String × Option Nat)
deriving DecidableEq, Repr

/-- Environment oracle for one pipeline run: outcomes of process spawns
(per command and 1-based attempt number), filesystem queries and calls,
configuration persistence, the formatted Moscow timestamps taken at run
start, and the floating-point megabyte renderings (delegated to the
oracle because the embedding does not model floats). -/
structure Env where
  spawn : String → Nat → SpawnResult
  stamp : String
  stampMsk : String
  stampHM : String
  isFile : String → Bool
  fileName : String → Option String
  parentDir : String → Option String
  pathExists : String → Bool
  metadataLen : String → Option Nat
  createDirAll : String → Except String Unit
  writeFile : String → Except String Unit
  removeDirAll : String → Except String Unit
  saveConfig : Except String Unit
  fmtMB1 : Nat → String

/-- The staging directory name of main.rs:299:
`/tmp/backup_` followed by the run's compact Moscow timestamp. -/
def stagingDir (e : Env) : String := "/tmp/backup_" ++ e.stamp

/-- The nine repository-initialization commands of main.rs:304-314. -/
def gitConfigCmds (dir user repoUrl : String) : List String :=
  [ "cd " ++ dir ++ " && git init",
    "cd " ++ dir ++ " && git config user.name \"" ++ user ++ "\"",
    "cd " ++ dir ++ " && git config user.email \"" ++ user ++ "@backup.local\"",
    "cd " ++ dir ++ " && git config http.postBuffer 524288000",
    "cd " ++ dir ++ " && git config http.timeout 300",
    "cd " ++ dir ++ " && git config core.compression 9",
    "cd " ++ dir ++ " && git config push.default simple",
    "cd " ++ dir ++ " && git config pull.rebase false",
    "cd " ++ dir ++ " && git remote add origin " ++ repoUrl ]

/-- The remote-probe command of main.rs:322. -/
def probeCmd (dir : String) : String :=
  "cd " ++ dir ++ " && git ls-remote --heads origin main"

/-- The three synchronization commands of main.rs:330-334. -/
def syncCmdsList (dir b : String) : List String :=
  [ "cd " ++ dir ++ " && git fetch origin " ++ b ++ " || true",
    "cd " ++ dir ++ " && (git checkout " ++ b ++ " || git checkout -b " ++ b ++ ")",
    "cd " ++ dir ++ " && git pull origin " ++ b ++ " --no-edit || true" ]

/-- An ASCII single-quote, used by the commit command of main.rs:470. -/
def sq : String := (Char.ofNat 39).toString

/-- The four publish commands of main.rs:468-479. -/
def finalCmdsList (dir b commitMsg : String) : List String :=
  [ "cd " ++ dir ++ " && git add .",
    "cd " ++ dir ++ " && git commit -m " ++ sq ++ commitMsg ++ sq,
    "cd " ++ dir ++ " && git pull origin " ++ b ++ " --no-edit",
    "cd " ++ dir ++ " && git push origin " ++ b ]

/-- Record one executor invocation in the trace and return its result. -/
def execStep (e : Env) (cmd : String) (budget : Nat) (st : PBState) :
    Except String Unit × PBState :=
  ((execute_command_with_retry cmd budget (e.spawn cmd)).1,
   { st with trace := st.trace ++ [.execCmd cmd budget] })

/-- Record a `fs::create_dir_all` call and return its result. -/
def fsCreateStep (e : Env) (p : String) (st : PBState) :
    Except String Unit × PBState :=
  (e.createDirAll p, { st with trace := st.trace ++ [.fsCreateDir p] })

/-- Record a `fs::write` call and return its result. -/
def fsWriteStep (e : Env) (p : String) (st : PBState) :
    Except String Unit × PBState :=
  (e.writeFile p, { st with trace := st.trace ++ [.fsWrite p] })

/-- Record a `fs::remove_dir_all` call and return its result. -/
def fsRemoveStep (e : Env) (p : String) (st : PBState) :
    Except String Unit × PBState :=
  (e.removeDirAll p, { st with trace := st.trace ++ [.fsRemove p] })

/-- Record a `config.save()` call and return its result. -/
def saveStep (e : Env) (st : PBState) : Except String Unit × PBState :=
  (e.saveConfig, { st with trace := st.trace ++ [.cfgSave] })

/-- Run a list of commands through the executor with a common retry
budget, stopping at (and propagating) the first failure — the
`for cmd in ... \x7b execute_command_with_retry(&cmd, k)? \x7d` loops of
main.rs:317-319, 337-339 and 481-483. -/
def runCmds (e : Env) (budget : Nat) (st : PBState) :
    List String → Except String Unit × PBState
  | [] => (.ok (), st)
  | c :: rest =>
    match (execStep e c budget st).1 with
    | .ok _ => runCmds e budget (execStep e c budget st).2 rest
    | .error m => (.error m, (execStep e c budget st).2)

/-- The `?` operator on pipeline steps: on error, stop with the state at
the failure point; on success, continue with the resulting state. -/
def seqPB (x : Except String Unit × PBState)
    (f : PBState → Except String Unit × PBState) :
    Except String Unit × PBState :=
  match x.1 with
  | .ok _ => f x.2
  | .error m => (.error m, x.2)

/-- The `match` on a step's result (main.rs:383): continue with `onOk` on
success and with the fallback `onErr` on failure. -/
def tryPB (x : Except String Unit × PBState)
    (onOk onErr : PBState → Except String Unit × PBState) :
    Except String Unit × PBState :=
  match x.1 with
  | .ok _ => onOk x.2
  | .error _ => onErr x.2

/-- The archive name of main.rs:364-368: `file_`/`dir_` prefix by target
kind, 1-based index, base filename (a directory without a base name gets
`unknown`; a file without one is the source's `unwrap()` panic, embedded
as `none`). -/
def archiveNameOpt (e : Env) (index : Nat) (path : String) : Option String :=
  if e.isFile path then
    (e.fileName path).map fun b =>
      "file_" ++ toString (index + 1) ++ "_" ++ b ++ ".tar.gz"
  else
    some ("dir_" ++ toString (index + 1) ++ "_" ++
      ((e.fileName path).getD "unknown") ++ ".tar.gz")

/-- The direct tar command of main.rs:375-381. -/
def tarCmdOf (e : Env) (archivePath path : String) : String :=
  if e.isFile path then
    "tar -czf " ++ archivePath ++ " -C " ++ ((e.parentDir path).getD "/") ++
      " " ++ ((e.fileName path).getD "unknown")
  else
    "tar -czf " ++ archivePath ++ " -C " ++ path ++ " ."

/-- The fallback copy command of main.rs:402-406. -/
def copyCmdOf (e : Env) (tempDir path : String) : String :=
  if e.isFile path then "cp " ++ path ++ " " ++ tempDir ++ "/"
  else "rsync -av --timeout=300 " ++ path ++ "/ " ++ tempDir ++ "/"

/-- Record an archive entry: present on the direct path whether or not
the metadata read succeeded (main.rs:386-393), and only on metadata
success on the fallback path (main.rs:416-421). -/
def recordArchive (name : String) (len : Option Nat) (always : Bool)
    (st : PBState) : Except String Unit × PBState :=
  match len with
  | some l => (.ok (), { st with archives := st.archives ++ [(name, some l)] })
  | none =>
    if always then (.ok (), { st with archives := st.archives ++ [(name, none)] })
    else (.ok (), st)

/-- One iteration of the archival loop of main.rs:362-424 for the target
`path` at 0-based `index`: compute the archive name, try the direct tar
command, and on failure fall back to copy-into-holding-area, archive the
holding area, remove it. -/
def archiveStep (e : Env) (curDir : String) (index : Nat) (path : String)
    (st : PBState) : Except String Unit × PBState :=
  match archiveNameOpt e index path with
  | none => (.error "panic: file target has no file name", st)
  | some archiveName =>
    let archivePath := curDir ++ "/" ++ archiveName
    let tempDir := "/tmp/temp_copy_" ++ toString index
    tryPB (execStep e (tarCmdOf e archivePath path) 3 st)
      (fun st1 => recordArchive archiveName (e.metadataLen archivePath) true st1)
      (fun st1 =>
        seqPB (fsCreateStep e tempDir st1) fun st2 =>
        seqPB (execStep e (copyCmdOf e tempDir path) 3 st2) fun st3 =>
        seqPB (execStep e ("tar -czf " ++ archivePath ++ " -C " ++ tempDir ++ " .") 3 st3)
          fun st4 =>
        seqPB (fsRemoveStep e tempDir st4) fun st5 =>
        recordArchive archiveName (e.metadataLen archivePath) false st5)

/-- The archival loop over all configured targets (main.rs:362-424),
`index` starting at 0 as in `enumerate()`. -/
def archiveLoop (e : Env) (curDir : String) :
    Nat → PBState → List String → Except String Unit × PBState
  | _, st, [] => (.ok (), st)
  | index, st, p :: rest =>
    match (archiveStep e curDir index p st).1 with
    | .ok _ => archiveLoop e curDir (index + 1) (archiveStep e curDir index p st).2 rest
    | .error m => (.error m, (archiveStep e curDir index p st).2)

/-- Total recorded archive bytes — `total_size` of main.rs:357 (entries
whose metadata read failed contribute nothing). -/
def totalSize (l : List (String × Option Nat)) : Nat :=
  l.foldl (fun acc x => acc + x.2.getD 0) 0

/-- The per-run subdirectory name of main.rs:349-352: the backup label
(if configured) and the run timestamp. -/
def backupFolderName (e : Env) (c : Config) : String :=
  match c.backup_name with
  | some n => n ++ "_" ++ e.stamp
  | none => e.stamp

/-- The `default_branch` of main.rs:322-326: `main` when the 2-attempt
ls-remote probe for a `main` head succeeds, `master` otherwise. -/
def resolvedBranch (e : Env) (dir : String) : String :=
  match (execute_command_with_retry (probeCmd dir) 2 (e.spawn (probeCmd dir))).1 with
  | .ok _ => "main"
  | .error _ => "master"

/-- The commit message of main.rs:470-476 (float rendering of the
megabyte total supplied by the environment). -/
def commitMsgOf (e : Env) (folder : String) (archives : List (String × Option Nat)) :
    String :=
  "🌍 Backup " ++ folder ++ " - " ++ toString archives.length ++
    " архивов (" ++ e.fmtMB1 (totalSize archives) ++ " МБ) - MSK " ++ e.stampHM

/-- The exclusion-policy guard of main.rs:341-346: write the default
ignore list only when no `.gitignore` exists in the staging root. -/
def gitignoreGuardStep (e : Env) (dir : String) (st : PBState) :
    Except String Unit × PBState :=
  if e.pathExists (dir ++ "/.gitignore") then (.ok (), st)
  else fsWriteStep e (dir ++ "/.gitignore") st

/-- Embedding of `perform_backup` (main.rs:270-499).  Returns the Rust
function's result together with the final pipeline state (action trace,
configuration object, archive records). -/
def perform_backup (e : Env) (c : Config) : Except String Unit × PBState :=
  let st0 : PBState := { trace := [], cfg := c, archives := [] }
  if c.backup_paths.isEmpty then
    (.error "Нет путей для бэкапа! Сначала добавьте файлы/директории.", st0)
  else
    match repoUrlOf c with
    | .error m => (.error m, st0)
    | .ok url =>
      let dir := stagingDir e
      let user := c.gitea_username.getD ""
      seqPB (fsCreateStep e dir st0) fun st1 =>
      seqPB (runCmds e 3 st1 (gitConfigCmds dir user url)) fun st2 =>
      let st3 := (execStep e (probeCmd dir) 2 st2).2
      let b := resolvedBranch e dir
      seqPB (runCmds e 3 st3 (syncCmdsList dir b)) fun st4 =>
      seqPB (gitignoreGuardStep e dir st4) fun st5 =>
      let folder := backupFolderName e c
      let curDir := dir ++ "/" ++ folder
      seqPB (fsCreateStep e curDir st5) fun st6 =>
      seqPB (archiveLoop e curDir 0 st6 c.backup_paths) fun st7 =>
      seqPB (fsWriteStep e (curDir ++ "/backup_info.txt") st7) fun st8 =>
      seqPB (runCmds e 3 st8
        (finalCmdsList dir b (commitMsgOf e folder st8.archives))) fun st9 =>
      seqPB (fsRemoveStep e dir st9) fun st10 =>
      seqPB (saveStep e
        { st10 with cfg := { st10.cfg with last_backup := some e.stampMsk } })
        fun st12 => (.ok (), st12)

/-- A pipeline step never changes the configuration object. -/
def CfgPres (f : PBState → Except String Unit × PBState) : Prop :=
  ∀ st, (f st).2.cfg = st.cfg

/-- A pipeline step only ever appends to the action trace. -/
def TraceMono (f : PBState → Except String Unit × PBState) : Prop :=
  ∀ st, ∃ t, (f st).2.trace = st.trace ++ t

/-- The archive names the claim prescribes: `file_`/`dir_` prefix by
target kind, a 1-based sequential index, the base filename, `.tar.gz`. -/
def archiveNameOf (e : Env) (oneIdx : Nat) (p : String) : String :=
  (if e.isFile p then "file_" else "dir_") ++ toString oneIdx ++ "_" ++
    ((e.fileName p).getD "unknown") ++ ".tar.gz"

/-- The claim's name list for a target list, indices starting at
`start + 1`. -/
def archiveNamesFrom (e : Env) : Nat → List String → List String
  | _, [] => []
  | i, p :: rest => archiveNameOf e (i + 1) p :: archiveNamesFrom e (i + 1) rest

/-- A fully configured `Config` used for concrete runs. -/
def cfgFull : Config :=
  { gitea_url := some "git.example.com"
    gitea_repo := some "alex/backup"
    gitea_username := some "alex"
    gitea_password := some "pw"
    backup_paths := ["/data"]
    last_backup := none
    backup_name := some "srv"
    backup_frequency := some BackupFrequency.Daily
    backup_time := some "14:30" }

/-- An environment in which every external action succeeds. -/
def envOk : Env :=
  { spawn := fun _ _ => SpawnResult.spawned true "" ""
    stamp := "S"
    stampMsk := "2025-01-01 00:00:00 MSK"
    stampHM := "2025-01-01 00:00"
    isFile := fun _ => false
    fileName := fun _ => some "data"
    parentDir := fun _ => some "/"
    pathExists := fun _ => false
    metadataLen := fun _ => some 7
    createDirAll := fun _ => .ok ()
    writeFile := fun _ => .ok ()
    removeDirAll := fun _ => .ok ()
    saveConfig := .ok ()
    fmtMB1 := fun _ => "0.0" }

/-- Like `envOk`, but the final configuration save fails. -/
def envSaveFail : Env := { envOk with saveConfig := .error "No space left on device" }

/-- The five precondition error messages of main.rs:272 and main.rs:278-296. -/
def preconditionMsgs : List String :=
  [ "Нет путей для бэкапа! Сначала добавьте файлы/директории.",
    "Не настроен логин Gitea",
    "Не настроен пароль Gitea",
    "Не настроен URL Gitea",
    "Не настроен репозиторий Gitea" ]

/-- The configuration `cfgFull` with the target set emptied. -/
def cfgNoPaths : Config := { cfgFull with backup_paths := [] }

/-- The default ignore-list contents of `create_gitignore` (main.rs:227-264). -/
def gitignoreContent : String :=
  "# Временные файлы\n*.tmp\n*.temp\n*.log\n*.pid\n*.swp\n*.swo\n*~\n\n" ++
  "# Системные файлы\n.DS_Store\nThumbs.db\ndesktop.ini\n\n" ++
  "# Большие файлы (больше 100MB будут игнорироваться)\n" ++
  "*.iso\n*.img\n*.dmg\n*.vdi\n*.vmdk\n\n" ++
  "# Кэши\n*.cache\ncache/\n.cache/\nnode_modules/\n.npm/\n.yarn/\n\n" ++
  "# Личные данные\n*.key\n*.pem\n*.p12\n*.pfx\nid_rsa\nid_ecdsa\nid_ed25519\n"

/-- Embedding of `create_gitignore` (main.rs:226-268) as a transformer of
the staging root's `.gitignore` contents (`fs::write` overwrites any
existing contents). -/
def create_gitignore (file : Option String) : Option String :=
  some gitignoreContent

/-- The guarded exclusion-policy write of main.rs:341-346, at file-content
level (`Path::exists` is `Option.isSome` here): the default list is
written only when no file is present. -/
def gitignoreWrite (file : Option String) : Option String :=
  if file.isSome then file else create_gitignore file

/-- Like `envOk`, but with one file target and one directory target. -/
def envArch : Env :=
  { envOk with
    isFile := fun p => p == "/etc/app.conf"
    fileName := fun p =>
      if p == "/etc/app.conf" then some "app.conf"
      else if p == "/var/www" then some "www" else none }

theorem execFrom_allFail (cmd : String) (run : Nat → SpawnResult) (n : Nat)
    (outF errF : Nat → String)
    (hpull : strContains cmd "git pull" = false)
    (hrun : ∀ k, run k = SpawnResult.spawned false (outF k) (errF k)) :
    ∀ r a lastErr, a + r = n + 1 →
      execFrom cmd run n a r lastErr =
        (.error (if r = 0 then lastErr.getD unknownErr else errHead ++ errF n),
         failTrace n a r) := by
  intro r
  induction r with
  | zero => intro a lastErr _; simp [execFrom, failTrace]
  | succ r ih =>
    intro a lastErr h
    simp only [execFrom, hrun, hpull, Bool.or_self, failTrace]
    rw [ih (a + 1) (some (errHead ++ errF a)) (by omega)]
    by_cases hr : r = 0
    · subst hr
      obtain rfl : a = n := by omega
      simp
    · simp [hr]

theorem failTrace_eq_flatMap (n : Nat) :
    ∀ r a, failTrace n a r =
      (List.range r).flatMap (fun k => ExecEvent.invoke (a + k) ::
        if a + k < n then [ExecEvent.sleep5] else []) := by
  intro r
  induction r with
  | zero => intro a; simp [failTrace]
  | succ r ih =>
    intro a
    rw [failTrace, ih (a + 1), List.range_succ_eq_map, List.flatMap_cons,
      List.flatMap_map]
    simp only [List.cons_append, Nat.add_zero, Nat.succ_eq_add_one]
    have hk : ∀ k : Nat, a + 1 + k = a + (k + 1) := fun k => by omega
    simp only [hk]

/-- C1: for a command not recognized as a pull operation whose process
spawns and exits non-zero on every attempt, `execute_command_with_retry`
with a positive bound invokes the command exactly `max_attempts` times,
sleeps the fixed 5-second delay between consecutive attempts but not
after the last, and returns an error carrying the last captured stderr
verbatim (after the fixed message head). -/
theorem exec_retry_allFail_spec (cmd : String) (run : Nat → SpawnResult)
    (n : Nat) (outF errF : Nat → String)
    (hpull : strContains cmd "git pull" = false) (hn : 1 ≤ n)
    (hrun : ∀ k, run k = SpawnResult.spawned false (outF k) (errF k)) :
    execute_command_with_retry cmd n run =
      (.error (errHead ++ errF n),
       (List.range n).flatMap (fun k => ExecEvent.invoke (k + 1) ::
         if k + 1 < n then [ExecEvent.sleep5] else [])) := by
  rw [execute_command_with_retry,
    execFrom_allFail cmd run n outF errF hpull hrun n 1 none (by omega),
    failTrace_eq_flatMap, if_neg (by omega : ¬n = 0)]
  have hk : ∀ k : Nat, 1 + k = k + 1 := fun k => Nat.add_comm 1 k
  simp only [hk]

theorem exec_retry_allFail_spec_witness :
    strContains "false" "git pull" = false ∧ 1 ≤ 2 ∧
    execute_command_with_retry "false" 2
        (fun k => SpawnResult.spawned false "" ("boom" ++ toString k)) =
      (.error (errHead ++ "boom2"),
       [ExecEvent.invoke 1, ExecEvent.sleep5, ExecEvent.invoke 2]) := by
  refine ⟨by decide, by decide, ?_⟩
  rw [exec_retry_allFail_spec "false"
    (fun k => SpawnResult.spawned false "" ("boom" ++ toString k)) 2
    (fun _ => "") (fun k => "boom" ++ toString k) (by decide) (by decide)
    (fun k => rfl)]
  rfl

/-- C2: for a command recognized as a repository-pull operation (it
contains the substring "git pull"), if the process spawns on the first
attempt then `execute_command_with_retry` returns success after exactly
one invocation, regardless of the exit status. -/
theorem exec_retry_pull_spec (cmd : String) (run : Nat → SpawnResult)
    (n : Nat) (ex : Bool) (outS errS : String)
    (hpull : strContains cmd "git pull" = true) (hn : 1 ≤ n)
    (hrun : run 1 = SpawnResult.spawned ex outS errS) :
    execute_command_with_retry cmd n run = (.ok (), [ExecEvent.invoke 1]) := by
  rw [execute_command_with_retry]
  obtain ⟨r, rfl⟩ : ∃ r, n = r + 1 := ⟨n - 1, by omega⟩
  simp [execFrom, hrun, hpull]

theorem exec_retry_pull_spec_witness :
    strContains "cd /tmp/b && git pull origin master --no-edit" "git pull" = true ∧
    (1 : Nat) ≤ 3 ∧
    execute_command_with_retry "cd /tmp/b && git pull origin master --no-edit" 3
        (fun _ => SpawnResult.spawned false "" "fatal: could not read from remote") =
      (.ok (), [ExecEvent.invoke 1]) :=
  ⟨by decide, by decide,
    exec_retry_pull_spec "cd /tmp/b && git pull origin master --no-edit"
      (fun _ => SpawnResult.spawned false "" "fatal: could not read from remote")
      3 false "" "fatal: could not read from remote" (by decide) (by decide) rfl⟩

/-- C10: with `max_attempts = 0` the retry loop body never runs, so
`execute_command_with_retry` spawns no process (empty event trace) and
returns the generic unknown-error message. -/
theorem exec_retry_zero_attempts (cmd : String) (run : Nat → SpawnResult) :
    execute_command_with_retry cmd 0 run = (.error unknownErr, []) := rfl

/-- C4: with a configured schedule time that parses as hour `th`, minute
`tm`, an iteration invokes the pipeline exactly when the current hour and
minute both match and the ordinal day differs from `last_backup_day`; on
pipeline success the new `last_backup_day` is the current day, and any
later iteration on that same day (in particular in the same matching
minute) does not invoke the pipeline again. -/
theorem daemon_fire_once_per_day (bt : String) (now : MoscowNow)
    (lastDay : Nat) (th tm : Nat) (res : PipelineResult)
    (hparse : parseHM bt = some (th, tm)) :
    ((daemonStep (some bt) now lastDay res).fired =
      (now.hour == th && now.minute == tm && now.ordinalDay != lastDay)) ∧
    (now.hour = th → now.minute = tm → now.ordinalDay ≠ lastDay →
      (daemonStep (some bt) now lastDay PipelineResult.ok).newLastDay =
        now.ordinalDay) ∧
    (∀ now2 : MoscowNow, ∀ res2 : PipelineResult,
      now2.ordinalDay = now.ordinalDay →
      (daemonStep (some bt) now2 now.ordinalDay res2).fired = false) := by
  refine ⟨?_, ?_, ?_⟩
  · by_cases h : schedMatch (some bt) now lastDay
    · unfold daemonStep; rw [if_pos h]
      cases res <;> simpa [schedMatch, hparse] using h
    · unfold daemonStep; rw [if_neg h]
      simp only [schedMatch, hparse] at h
      simpa using (Bool.not_eq_true _ |>.mp h).symm
  · intro h1 h2 h3
    have hm : schedMatch (some bt) now lastDay = true := by
      simp [schedMatch, hparse, h1, h2, h3]
    unfold daemonStep; rw [if_pos hm]
  · intro now2 res2 hday
    have hm : schedMatch (some bt) now2 now.ordinalDay = false := by
      simp [schedMatch, hparse, hday]
    unfold daemonStep; rw [if_neg (by simp [hm])]

theorem daemon_fire_once_per_day_witness :
    parseHM "14:30" = some (14, 30) ∧
    (daemonStep (some "14:30") ⟨14, 30, 100⟩ 99 PipelineResult.ok).fired = true ∧
    (daemonStep (some "14:30") ⟨14, 30, 100⟩ 99 PipelineResult.ok).newLastDay = 100 ∧
    (daemonStep (some "14:30") ⟨14, 30, 100⟩ 100 PipelineResult.ok).fired = false := by
  have h := daemon_fire_once_per_day "14:30" ⟨14, 30, 100⟩ 99 14 30
    PipelineResult.ok (by decide)
  refine ⟨by decide, ?_, ?_, ?_⟩
  · rw [h.1]; decide
  · exact h.2.1 rfl rfl (by decide)
  · exact h.2.2 ⟨14, 30, 100⟩ PipelineResult.ok rfl

/-- C5: a pipeline failure never terminates the scheduler loop: an
iteration whose pipeline returns an error leaves `last_backup_day`
unchanged, logs the error message exactly when the pipeline was invoked,
and the loop goes on to process every remaining iteration (one output per
input, for every input list). -/
theorem daemon_error_isolated (backupTime : Option String) (now : MoscowNow)
    (lastDay : Nat) (m : String) :
    ((daemonStep backupTime now lastDay (PipelineResult.err m)).newLastDay =
      lastDay) ∧
    ((daemonStep backupTime now lastDay (PipelineResult.err m)).loggedError =
      if schedMatch backupTime now lastDay then some m else none) ∧
    (∀ (d0 : Nat) (trace : List (MoscowNow × PipelineResult)),
      (daemonRun backupTime d0 trace).2.length = trace.length) := by
  refine ⟨?_, ?_, ?_⟩
  · unfold daemonStep
    by_cases h : schedMatch backupTime now lastDay <;> simp [h]
  · unfold daemonStep
    by_cases h : schedMatch backupTime now lastDay <;> simp [h]
  · intro d0 trace
    induction trace generalizing d0 with
    | nil => rfl
    | cons p rest ih =>
      obtain ⟨pn, pr⟩ := p
      simp [daemonRun, ih]

@[simp] theorem seqPB_ok (st : PBState) (f : PBState → Except String Unit × PBState)
    (u : Unit) : seqPB (.ok u, st) f = f st := rfl

@[simp] theorem seqPB_err (m : String) (st : PBState)
    (f : PBState → Except String Unit × PBState) :
    seqPB (.error m, st) f = (.error m, st) := rfl

@[simp] theorem execStep_cfg (e : Env) (cmd : String) (b : Nat) (st : PBState) :
    (execStep e cmd b st).2.cfg = st.cfg := rfl

@[simp] theorem fsCreateStep_cfg (e : Env) (p : String) (st : PBState) :
    (fsCreateStep e p st).2.cfg = st.cfg := rfl

@[simp] theorem fsWriteStep_cfg (e : Env) (p : String) (st : PBState) :
    (fsWriteStep e p st).2.cfg = st.cfg := rfl

@[simp] theorem fsRemoveStep_cfg (e : Env) (p : String) (st : PBState) :
    (fsRemoveStep e p st).2.cfg = st.cfg := rfl

@[simp] theorem saveStep_cfg (e : Env) (st : PBState) :
    (saveStep e st).2.cfg = st.cfg := rfl

@[simp] theorem gitignoreGuardStep_cfg (e : Env) (dir : String) (st : PBState) :
    (gitignoreGuardStep e dir st).2.cfg = st.cfg := by
  unfold gitignoreGuardStep
  split <;> rfl

@[simp] theorem runCmds_cfg (e : Env) (b : Nat) (cmds : List String) :
    ∀ st : PBState, (runCmds e b st cmds).2.cfg = st.cfg := by
  induction cmds with
  | nil => intro st; rfl
  | cons c rest ih =>
    intro st
    simp only [runCmds]
    split
    · simp [ih]
    · rfl

@[simp] theorem tryPB_ok (st : PBState) (u : Unit)
    (f g : PBState → Except String Unit × PBState) :
    tryPB (.ok u, st) f g = f st := rfl

@[simp] theorem tryPB_err (m : String) (st : PBState)
    (f g : PBState → Except String Unit × PBState) :
    tryPB (.error m, st) f g = g st := rfl

@[simp] theorem recordArchive_cfg (name : String) (len : Option Nat)
    (always : Bool) (st : PBState) :
    (recordArchive name len always st).2.cfg = st.cfg := by
  unfold recordArchive
  repeat' split
  all_goals rfl

@[simp] theorem recordArchive_trace (name : String) (len : Option Nat)
    (always : Bool) (st : PBState) :
    (recordArchive name len always st).2.trace = st.trace := by
  unfold recordArchive
  repeat' split
  all_goals rfl

theorem cfgPres_seqPB (g f : PBState → Except String Unit × PBState)
    (hg : CfgPres g) (hf : CfgPres f) : CfgPres (fun st => seqPB (g st) f) := by
  intro st
  rcases hx : g st with ⟨r, st1⟩
  have h1 : st1.cfg = st.cfg := by
    have h2 := hg st
    rw [hx] at h2
    exact h2
  show (seqPB (g st) f).2.cfg = st.cfg
  cases r with
  | ok u => rw [hx, seqPB_ok, hf st1, h1]
  | error m => rw [hx, seqPB_err]; exact h1

theorem cfgPres_tryPB (g f1 f2 : PBState → Except String Unit × PBState)
    (hg : CfgPres g) (h1 : CfgPres f1) (h2 : CfgPres f2) :
    CfgPres (fun st => tryPB (g st) f1 f2) := by
  intro st
  rcases hx : g st with ⟨r, st1⟩
  have hc : st1.cfg = st.cfg := by
    have h3 := hg st
    rw [hx] at h3
    exact h3
  show (tryPB (g st) f1 f2).2.cfg = st.cfg
  cases r with
  | ok u => rw [hx, tryPB_ok, h1 st1, hc]
  | error m => rw [hx, tryPB_err, h2 st1, hc]

@[simp] theorem archiveStep_cfg (e : Env) (curDir : String) (index : Nat)
    (path : String) (st : PBState) :
    (archiveStep e curDir index path st).2.cfg = st.cfg := by
  unfold archiveStep
  rcases hname : archiveNameOpt e index path with _ | name
  · rfl
  · exact cfgPres_tryPB _ _ _ (fun s => rfl) (fun s => recordArchive_cfg _ _ _ s)
      (cfgPres_seqPB _ _ (fun s => rfl)
        (cfgPres_seqPB _ _ (fun s => rfl)
          (cfgPres_seqPB _ _ (fun s => rfl)
            (cfgPres_seqPB _ _ (fun s => rfl)
              (fun s => recordArchive_cfg _ _ _ s))))) st

@[simp] theorem archiveLoop_cfg (e : Env) (curDir : String) (paths : List String) :
    ∀ (index : Nat) (st : PBState),
      (archiveLoop e curDir index st paths).2.cfg = st.cfg := by
  induction paths with
  | nil => intro index st; rfl
  | cons p rest ih =>
    intro index st
    simp only [archiveLoop]
    split
    · simp [ih]
    · simp

theorem execStep_mono (e : Env) (cmd : String) (b : Nat) :
    TraceMono (execStep e cmd b) :=
  fun _ => ⟨[.execCmd cmd b], rfl⟩

theorem fsCreateStep_mono (e : Env) (p : String) : TraceMono (fsCreateStep e p) :=
  fun _ => ⟨[.fsCreateDir p], rfl⟩

theorem fsWriteStep_mono (e : Env) (p : String) : TraceMono (fsWriteStep e p) :=
  fun _ => ⟨[.fsWrite p], rfl⟩

theorem fsRemoveStep_mono (e : Env) (p : String) : TraceMono (fsRemoveStep e p) :=
  fun _ => ⟨[.fsRemove p], rfl⟩

theorem saveStep_mono (e : Env) : TraceMono (saveStep e) :=
  fun _ => ⟨[.cfgSave], rfl⟩

theorem gitignoreGuardStep_mono (e : Env) (dir : String) :
    TraceMono (gitignoreGuardStep e dir) := by
  intro st
  unfold gitignoreGuardStep
  split
  · exact ⟨[], by simp⟩
  · exact ⟨[.fsWrite (dir ++ "/.gitignore")], rfl⟩

theorem runCmds_mono (e : Env) (b : Nat) (cmds : List String) :
    TraceMono (fun st => runCmds e b st cmds) := by
  induction cmds with
  | nil => intro st; exact ⟨[], by simp [runCmds]⟩
  | cons c rest ih =>
    intro st
    simp only [runCmds]
    split
    · obtain ⟨t, ht⟩ := ih (execStep e c b st).2
      refine ⟨Action.execCmd c b :: t, ?_⟩
      rw [ht]
      simp [execStep]
    · exact ⟨[Action.execCmd c b], rfl⟩

theorem recordArchive_mono (name : String) (len : Option Nat) (always : Bool) :
    TraceMono (recordArchive name len always) :=
  fun st => ⟨[], by simp⟩

theorem traceMono_seq (g f : PBState → Except String Unit × PBState)
    (hg : TraceMono g) (hf : TraceMono f) :
    TraceMono (fun st => seqPB (g st) f) := by
  intro st
  obtain ⟨t1, ht1⟩ := hg st
  rcases hx : g st with ⟨r, st1⟩
  rw [hx] at ht1
  have ht1' : st1.trace = st.trace ++ t1 := ht1
  cases r with
  | ok u =>
    obtain ⟨t2, ht2⟩ := hf st1
    refine ⟨t1 ++ t2, ?_⟩
    show (seqPB (g st) f).2.trace = st.trace ++ (t1 ++ t2)
    rw [hx, seqPB_ok, ht2, ht1', List.append_assoc]
  | error m =>
    refine ⟨t1, ?_⟩
    show (seqPB (g st) f).2.trace = st.trace ++ t1
    rw [hx, seqPB_err]
    exact ht1'

theorem traceMono_tryPB (g f1 f2 : PBState → Except String Unit × PBState)
    (hg : TraceMono g) (h1 : TraceMono f1) (h2 : TraceMono f2) :
    TraceMono (fun st => tryPB (g st) f1 f2) := by
  intro st
  obtain ⟨t1, ht1⟩ := hg st
  rcases hx : g st with ⟨r, st1⟩
  rw [hx] at ht1
  have ht1' : st1.trace = st.trace ++ t1 := ht1
  cases r with
  | ok u =>
    obtain ⟨t2, ht2⟩ := h1 st1
    refine ⟨t1 ++ t2, ?_⟩
    show (tryPB (g st) f1 f2).2.trace = st.trace ++ (t1 ++ t2)
    rw [hx, tryPB_ok, ht2, ht1', List.append_assoc]
  | error m =>
    obtain ⟨t2, ht2⟩ := h2 st1
    refine ⟨t1 ++ t2, ?_⟩
    show (tryPB (g st) f1 f2).2.trace = st.trace ++ (t1 ++ t2)
    rw [hx, tryPB_err, ht2, ht1', List.append_assoc]

theorem archiveStep_mono (e : Env) (curDir : String) (index : Nat) (path : String) :
    TraceMono (archiveStep e curDir index path) := by
  intro st
  unfold archiveStep
  rcases hname : archiveNameOpt e index path with _ | name
  · exact ⟨[], by simp⟩
  · exact traceMono_tryPB _ _ _ (execStep_mono e _ 3)
      (recordArchive_mono _ _ _)
      (traceMono_seq _ _ (fsCreateStep_mono e _)
        (traceMono_seq _ _ (execStep_mono e _ 3)
          (traceMono_seq _ _ (execStep_mono e _ 3)
            (traceMono_seq _ _ (fsRemoveStep_mono e _)
              (recordArchive_mono _ _ _))))) st

theorem archiveLoop_mono (e : Env) (curDir : String) (paths : List String) :
    ∀ index, TraceMono (fun st => archiveLoop e curDir index st paths) := by
  induction paths with
  | nil => intro index st; exact ⟨[], by simp [archiveLoop]⟩
  | cons p rest ih =>
    intro index st
    simp only [archiveLoop]
    split
    · obtain ⟨t1, ht1⟩ := archiveStep_mono e curDir index p st
      obtain ⟨t2, ht2⟩ := ih (index + 1) (archiveStep e curDir index p st).2
      exact ⟨t1 ++ t2, by rw [ht2, ht1, List.append_assoc]⟩
    · exact archiveStep_mono e curDir index p st

theorem seqPB_trace_extends (x : Except String Unit × PBState)
    (f : PBState → Except String Unit × PBState) (hf : TraceMono f) :
    ∃ t, (seqPB x f).2.trace = x.2.trace ++ t := by
  rcases x with ⟨r, st⟩
  cases r with
  | ok u =>
    obtain ⟨t, ht⟩ := hf st
    exact ⟨t, by rw [seqPB_ok]; exact ht⟩
  | error m => exact ⟨[], by rw [seqPB_err]; simp⟩

theorem runCmds_ok_trace (e : Env) (b : Nat) (cmds : List String) :
    ∀ st, (∀ cmd ∈ cmds, (execute_command_with_retry cmd b (e.spawn cmd)).1 = .ok ()) →
      runCmds e b st cmds =
        (.ok (), { st with trace := st.trace ++ cmds.map (fun c => Action.execCmd c b) }) := by
  induction cmds with
  | nil => intro st _; simp [runCmds]
  | cons c rest ih =>
    intro st h
    have hc : (execStep e c b st).1 = .ok () := h c (by simp)
    simp only [runCmds, hc]
    rw [ih _ (fun cmd hm => h cmd (by simp [hm]))]
    simp [execStep]

theorem fst_of_eq_pair {α β : Type} {x : α × β} {r : α} {s : β}
    (h : x = (r, s)) : x.1 = r := by rw [h]

theorem snd_of_eq_pair {α β : Type} {x : α × β} {r : α} {s : β}
    (h : x = (r, s)) : x.2 = s := by rw [h]

theorem runCmds_ok_trace_inv (e : Env) (b : Nat) (cmds : List String) :
    ∀ st st', runCmds e b st cmds = (.ok (), st') →
      st'.trace = st.trace ++ cmds.map (fun c0 => Action.execCmd c0 b) := by
  induction cmds with
  | nil =>
    intro st st' h
    simp only [runCmds] at h
    cases h
    simp
  | cons c rest ih =>
    intro st st' h
    simp only [runCmds] at h
    cases hr : (execStep e c b st).1 with
    | error m => rw [hr] at h; exact absurd h (by simp)
    | ok u =>
      rw [hr] at h
      have h2 := ih (execStep e c b st).2 st' h
      rw [h2]
      simp [execStep]

/-- The behavior of one full pipeline run, split by outcome: a success
implies the staging directory was removed, the configuration was saved,
the in-memory marker carries the run timestamp, and the remove and
branch-push actions are in the trace; a failure leaves the configuration
untouched unless the failing step was the final configuration save
itself, which runs after the marker update. -/
theorem perform_backup_master (e : Env) (c : Config) :
    ((perform_backup e c).1 = .ok () →
      e.removeDirAll (stagingDir e) = .ok () ∧ e.saveConfig = .ok () ∧
      (perform_backup e c).2.cfg = { c with last_backup := some e.stampMsk } ∧
      Action.fsRemove (stagingDir e) ∈ (perform_backup e c).2.trace ∧
      Action.execCmd ("cd " ++ stagingDir e ++ " && git push origin " ++
        resolvedBranch e (stagingDir e)) 3 ∈ (perform_backup e c).2.trace) ∧
    (∀ m, (perform_backup e c).1 = .error m →
      (perform_backup e c).2.cfg = c ∨
      ((perform_backup e c).2.cfg = { c with last_backup := some e.stampMsk } ∧
        e.saveConfig = .error m)) := by
  by_cases hemp : c.backup_paths.isEmpty
  · have hpb : perform_backup e c =
        (.error "Нет путей для бэкапа! Сначала добавьте файлы/директории.",
         ({ trace := [], cfg := c, archives := [] } : PBState)) := by
      unfold perform_backup
      rw [if_pos hemp]
    refine ⟨fun hok => absurd hok (by rw [hpb]; simp), fun m hm => ?_⟩
    exact Or.inl (by rw [hpb])
  · rcases hurl : repoUrlOf c with m0 | url
    · have hpb : perform_backup e c =
          (.error m0, ({ trace := [], cfg := c, archives := [] } : PBState)) := by
        unfold perform_backup
        rw [if_neg hemp, hurl]
      refine ⟨fun hok => absurd hok (by rw [hpb]; simp), fun m hm => ?_⟩
      exact Or.inl (by rw [hpb])
    · have hpb : perform_backup e c =
          seqPB (fsCreateStep e (stagingDir e) { trace := [], cfg := c, archives := [] })
            fun st1 =>
          seqPB (runCmds e 3 st1 (gitConfigCmds (stagingDir e) (c.gitea_username.getD "") url))
            fun st2 =>
          seqPB (runCmds e 3 ((execStep e (probeCmd (stagingDir e)) 2 st2).2)
              (syncCmdsList (stagingDir e) (resolvedBranch e (stagingDir e)))) fun st4 =>
          seqPB (gitignoreGuardStep e (stagingDir e) st4) fun st5 =>
          seqPB (fsCreateStep e (stagingDir e ++ "/" ++ backupFolderName e c) st5) fun st6 =>
          seqPB (archiveLoop e (stagingDir e ++ "/" ++ backupFolderName e c) 0 st6
            c.backup_paths) fun st7 =>
          seqPB (fsWriteStep e (stagingDir e ++ "/" ++ backupFolderName e c ++
            "/backup_info.txt") st7) fun st8 =>
          seqPB (runCmds e 3 st8 (finalCmdsList (stagingDir e)
            (resolvedBranch e (stagingDir e))
            (commitMsgOf e (backupFolderName e c) st8.archives))) fun st9 =>
          seqPB (fsRemoveStep e (stagingDir e) st9) fun st10 =>
          seqPB (saveStep e
            { st10 with cfg := { st10.cfg with last_backup := some e.stampMsk } })
            fun st12 => (.ok (), st12) := by
        unfold perform_backup
        rw [if_neg hemp, hurl]
      rcases hA1 : fsCreateStep e (stagingDir e)
          { trace := [], cfg := c, archives := [] } with ⟨r1, st1⟩
      have hc1 : st1.cfg = c := by
        rw [← snd_of_eq_pair hA1]
        simp
      cases r1 with
      | error m1 =>
        rw [hA1, seqPB_err] at hpb
        exact ⟨fun hok => absurd hok (by rw [hpb]; simp),
          fun m hm => Or.inl (by rw [hpb]; exact hc1)⟩
      | ok u1 =>
        cases u1
        simp only [hA1, seqPB_ok] at hpb
        rcases hA2 : runCmds e 3 st1
            (gitConfigCmds (stagingDir e) (c.gitea_username.getD "") url) with ⟨r2, st2⟩
        have hc2 : st2.cfg = c := by
          rw [← snd_of_eq_pair hA2]
          simp [hc1]
        cases r2 with
        | error m2 =>
          rw [hA2, seqPB_err] at hpb
          exact ⟨fun hok => absurd hok (by rw [hpb]; simp),
            fun m hm => Or.inl (by rw [hpb]; exact hc2)⟩
        | ok u2 =>
          cases u2
          simp only [hA2, seqPB_ok] at hpb
          rcases hA3 : runCmds e 3 ((execStep e (probeCmd (stagingDir e)) 2 st2).2)
              (syncCmdsList (stagingDir e) (resolvedBranch e (stagingDir e)))
            with ⟨r3, st4⟩
          have hc4 : st4.cfg = c := by
            rw [← snd_of_eq_pair hA3]
            simp [hc2]
          cases r3 with
          | error m3 =>
            rw [hA3, seqPB_err] at hpb
            exact ⟨fun hok => absurd hok (by rw [hpb]; simp),
              fun m hm => Or.inl (by rw [hpb]; exact hc4)⟩
          | ok u3 =>
            cases u3
            simp only [hA3, seqPB_ok] at hpb
            rcases hA4 : gitignoreGuardStep e (stagingDir e) st4 with ⟨r4, st5⟩
            have hc5 : st5.cfg = c := by
              rw [← snd_of_eq_pair hA4]
              simp [hc4]
            cases r4 with
            | error m4 =>
              rw [hA4, seqPB_err] at hpb
              exact ⟨fun hok => absurd hok (by rw [hpb]; simp),
                fun m hm => Or.inl (by rw [hpb]; exact hc5)⟩
            | ok u4 =>
              cases u4
              simp only [hA4, seqPB_ok] at hpb
              rcases hA5 : fsCreateStep e
                  (stagingDir e ++ "/" ++ backupFolderName e c) st5 with ⟨r5, st6⟩
              have hc6 : st6.cfg = c := by
                rw [← snd_of_eq_pair hA5]
                simp [hc5]
              cases r5 with
              | error m5 =>
                rw [hA5, seqPB_err] at hpb
                exact ⟨fun hok => absurd hok (by rw [hpb]; simp),
                  fun m hm => Or.inl (by rw [hpb]; exact hc6)⟩
              | ok u5 =>
                cases u5
                simp only [hA5, seqPB_ok] at hpb
                rcases hA6 : archiveLoop e
                    (stagingDir e ++ "/" ++ backupFolderName e c) 0 st6
                    c.backup_paths with ⟨r6, st7⟩
                have hc7 : st7.cfg = c := by
                  rw [← snd_of_eq_pair hA6]
                  simp [hc6]
                cases r6 with
                | error m6 =>
                  rw [hA6, seqPB_err] at hpb
                  exact ⟨fun hok => absurd hok (by rw [hpb]; simp),
                    fun m hm => Or.inl (by rw [hpb]; exact hc7)⟩
                | ok u6 =>
                  cases u6
                  simp only [hA6, seqPB_ok] at hpb
                  rcases hA7 : fsWriteStep e (stagingDir e ++ "/" ++
                      backupFolderName e c ++ "/backup_info.txt") st7 with ⟨r7, st8⟩
                  have hc8 : st8.cfg = c := by
                    rw [← snd_of_eq_pair hA7]
                    simp [hc7]
                  cases r7 with
                  | error m7 =>
                    rw [hA7, seqPB_err] at hpb
                    exact ⟨fun hok => absurd hok (by rw [hpb]; simp),
                      fun m hm => Or.inl (by rw [hpb]; exact hc8)⟩
                  | ok u7 =>
                    cases u7
                    simp only [hA7, seqPB_ok] at hpb
                    rcases hA8 : runCmds e 3 st8 (finalCmdsList (stagingDir e)
                        (resolvedBranch e (stagingDir e))
                        (commitMsgOf e (backupFolderName e c) st8.archives))
                      with ⟨r8, st9⟩
                    have hc9 : st9.cfg = c := by
                      rw [← snd_of_eq_pair hA8]
                      simp [hc8]
                    cases r8 with
                    | error m8 =>
                      rw [hA8, seqPB_err] at hpb
                      exact ⟨fun hok => absurd hok (by rw [hpb]; simp),
                        fun m hm => Or.inl (by rw [hpb]; exact hc9)⟩
                    | ok u8 =>
                      cases u8
                      simp only [hA8, seqPB_ok] at hpb
                      rcases hA9 : fsRemoveStep e (stagingDir e) st9 with ⟨r9, st10⟩
                      have hc10 : st10.cfg = c := by
                        rw [← snd_of_eq_pair hA9]
                        simp [hc9]
                      cases r9 with
                      | error m9 =>
                        rw [hA9, seqPB_err] at hpb
                        exact ⟨fun hok => absurd hok (by rw [hpb]; simp),
                          fun m hm => Or.inl (by rw [hpb]; exact hc10)⟩
                      | ok u9 =>
                        cases u9
                        simp only [hA9, seqPB_ok] at hpb
                        rcases hA10 : saveStep e
                            { st10 with cfg :=
                              { st10.cfg with last_backup := some e.stampMsk } }
                          with ⟨r10, st12⟩
                        have hc12 : st12.cfg =
                            { c with last_backup := some e.stampMsk } := by
                          rw [← snd_of_eq_pair hA10]
                          simp [hc10]
                        have hsave : e.saveConfig = r10 := fst_of_eq_pair hA10
                        cases r10 with
                        | error m10 =>
                          rw [hA10, seqPB_err] at hpb
                          refine ⟨fun hok => absurd hok (by rw [hpb]; simp),
                            fun m hm => Or.inr ⟨by rw [hpb]; exact hc12, ?_⟩⟩
                          rw [hpb] at hm
                          simp only at hm
                          rw [hsave, hm]
                        | ok u10 =>
                          cases u10
                          simp only [hA10, seqPB_ok] at hpb
                          have hremok : e.removeDirAll (stagingDir e) = .ok () :=
                            fst_of_eq_pair hA9
                          have htr9 : st9.trace = st8.trace ++
                              (finalCmdsList (stagingDir e)
                                (resolvedBranch e (stagingDir e))
                                (commitMsgOf e (backupFolderName e c) st8.archives)).map
                                (fun c0 => Action.execCmd c0 3) :=
                            runCmds_ok_trace_inv e 3 _ st8 st9 hA8
                          have htr10 : st10.trace = st9.trace ++
                              [Action.fsRemove (stagingDir e)] := by
                            rw [← snd_of_eq_pair hA9]
                            rfl
                          have htr12 : st12.trace = st10.trace ++ [Action.cfgSave] := by
                            rw [← snd_of_eq_pair hA10]
                            rfl
                          refine ⟨fun _ => ⟨hremok, hsave, by rw [hpb]; exact hc12,
                            ?_, ?_⟩, fun m hm => absurd hm (by rw [hpb]; simp)⟩
                          · rw [hpb]
                            show Action.fsRemove (stagingDir e) ∈ st12.trace
                            rw [htr12, htr10]
                            simp
                          · rw [hpb]
                            show _ ∈ st12.trace
                            rw [htr12, htr10, htr9]
                            simp [finalCmdsList]

@[simp] theorem execStep_archives (e : Env) (cmd : String) (b : Nat) (st : PBState) :
    (execStep e cmd b st).2.archives = st.archives := rfl

theorem recordArchive_fst (name : String) (len : Option Nat) (always : Bool)
    (st : PBState) : (recordArchive name len always st).1 = .ok () := by
  unfold recordArchive
  repeat' split
  all_goals rfl

theorem recordArchive_true_archives (name : String) (len : Option Nat)
    (st : PBState) :
    (recordArchive name len true st).2.archives = st.archives ++ [(name, len)] := by
  cases len <;> simp [recordArchive]

theorem exec_ok_of_spawn_ok (cmd : String) (run : Nat → SpawnResult) (b : Nat)
    (hb : 1 ≤ b) (h : ∀ k, ∃ o er, run k = SpawnResult.spawned true o er) :
    (execute_command_with_retry cmd b run).1 = .ok () := by
  obtain ⟨r, rfl⟩ : ∃ r, b = r + 1 := ⟨b - 1, by omega⟩
  obtain ⟨o, er, h1⟩ := h 1
  simp [execute_command_with_retry, execFrom, h1]

theorem archiveStep_ok_spec (e : Env) (curDir : String) (index : Nat) (p : String)
    (st : PBState)
    (hspawn : ∀ cmd k, ∃ o er, e.spawn cmd k = SpawnResult.spawned true o er)
    (hname : e.isFile p = true → (e.fileName p).isSome) :
    (archiveStep e curDir index p st).1 = .ok () ∧
    (archiveStep e curDir index p st).2.archives =
      st.archives ++ [(archiveNameOf e (index + 1) p,
        e.metadataLen (curDir ++ "/" ++ archiveNameOf e (index + 1) p))] := by
  have hnm : archiveNameOpt e index p = some (archiveNameOf e (index + 1) p) := by
    unfold archiveNameOpt archiveNameOf
    cases hf : e.isFile p
    · simp
    · obtain ⟨b, hb⟩ := Option.isSome_iff_exists.mp (hname hf)
      simp [hb]
  have htar : (execStep e
      (tarCmdOf e (curDir ++ "/" ++ archiveNameOf e (index + 1) p) p) 3 st).1 =
      .ok () :=
    exec_ok_of_spawn_ok _ _ 3 (by omega) (hspawn _)
  unfold archiveStep
  simp only [hnm]
  rcases hx : execStep e
      (tarCmdOf e (curDir ++ "/" ++ archiveNameOf e (index + 1) p) p) 3 st
    with ⟨r, st1⟩
  have hr : r = .ok () := by
    rw [← fst_of_eq_pair hx]
    exact htar
  subst hr
  rw [tryPB_ok]
  have ha1 : st1.archives = st.archives := by
    rw [← snd_of_eq_pair hx]
    simp
  refine ⟨recordArchive_fst _ _ _ _, ?_⟩
  rw [recordArchive_true_archives, ha1]

/-- C8: when every spawn succeeds and every file target has a base name,
the archival phase succeeds and produces exactly one archive per target,
in configured order, named with a `file_` or `dir_` head, the 1-based
index, the base filename and the `.tar.gz` suffix, with
sequential indices starting at 1. -/
theorem archival_names (e : Env) (curDir : String) (paths : List String)
    (hspawn : ∀ cmd k, ∃ o er, e.spawn cmd k = SpawnResult.spawned true o er)
    (hname : ∀ p, e.isFile p = true → (e.fileName p).isSome) :
    ∀ (index : Nat) (st : PBState),
      (archiveLoop e curDir index st paths).1 = .ok () ∧
      (archiveLoop e curDir index st paths).2.archives.map Prod.fst =
        st.archives.map Prod.fst ++ archiveNamesFrom e index paths := by
  induction paths with
  | nil => intro index st; exact ⟨rfl, by simp [archiveLoop, archiveNamesFrom]⟩
  | cons p rest ih =>
    intro index st
    obtain ⟨hs1, hs2⟩ := archiveStep_ok_spec e curDir index p st hspawn (hname p)
    simp only [archiveLoop, hs1]
    obtain ⟨ih1, ih2⟩ := ih (index + 1) (archiveStep e curDir index p st).2
    refine ⟨ih1, ?_⟩
    rw [ih2, hs2]
    simp [archiveNamesFrom]

/-- C3 (amended): `perform_backup` sets the in-memory marker just before
the final configuration save; a successful return implies the staging
directory was removed and the marker holds the run timestamp, and on a
failure return the marker is unchanged unless the failing step was the
final configuration save itself (which runs after the marker update). -/
theorem perform_backup_marker (e : Env) (c : Config) :
    ((perform_backup e c).1 = .ok () →
      e.removeDirAll (stagingDir e) = .ok () ∧
      Action.fsRemove (stagingDir e) ∈ (perform_backup e c).2.trace ∧
      (perform_backup e c).2.cfg.last_backup = some e.stampMsk) ∧
    (∀ m, (perform_backup e c).1 = .error m →
      (perform_backup e c).2.cfg.last_backup = c.last_backup ∨
      ((perform_backup e c).2.cfg.last_backup = some e.stampMsk ∧
        e.saveConfig = .error m)) := by
  obtain ⟨hok, herr⟩ := perform_backup_master e c
  refine ⟨fun h => ?_, fun m hm => ?_⟩
  · obtain ⟨h1, _, h3, h4, _⟩ := hok h
    exact ⟨h1, h4, by rw [h3]⟩
  · rcases herr m hm with h | ⟨h, hs⟩
    · exact Or.inl (by rw [h])
    · exact Or.inr ⟨by rw [h], hs⟩

theorem perform_backup_marker_witness :
    (perform_backup envOk cfgFull).1 = .ok () ∧
    envOk.removeDirAll (stagingDir envOk) = .ok () ∧
    Action.fsRemove (stagingDir envOk) ∈ (perform_backup envOk cfgFull).2.trace ∧
    (perform_backup envOk cfgFull).2.cfg.last_backup = some envOk.stampMsk := by
  have h := (perform_backup_marker envOk cfgFull).1 (by rfl)
  exact ⟨by rfl, h.1, h.2.1, h.2.2⟩

theorem perform_backup_marker_cex :
    (perform_backup envSaveFail cfgFull).1 = .error "No space left on device" ∧
    (perform_backup envSaveFail cfgFull).2.cfg.last_backup =
      some "2025-01-01 00:00:00 MSK" ∧
    cfgFull.last_backup = none := by
  refine ⟨?_, ?_, rfl⟩ <;> rfl

theorem repoUrlOf_missing (c : Config)
    (h : c.gitea_url = none ∨ c.gitea_username = none ∨
      c.gitea_password = none ∨ c.gitea_repo = none) :
    ∃ m, repoUrlOf c = .error m ∧ m ∈ preconditionMsgs := by
  unfold repoUrlOf
  cases hu : c.gitea_username with
  | none =>
    exact ⟨"Не настроен логин Gitea", by simp [hu], by simp [preconditionMsgs]⟩
  | some u =>
    cases hp : c.gitea_password with
    | none =>
      exact ⟨"Не настроен пароль Gitea", by simp [hu, hp],
        by simp [preconditionMsgs]⟩
    | some p =>
      cases hl : c.gitea_url with
      | none =>
        exact ⟨"Не настроен URL Gitea", by simp [hu, hp, hl],
          by simp [preconditionMsgs]⟩
      | some l =>
        cases hr : c.gitea_repo with
        | none =>
          exact ⟨"Не настроен репозиторий Gitea", by simp [hu, hp, hl, hr],
            by simp [preconditionMsgs]⟩
        | some r => simp [hu, hp, hl, hr] at h

/-- C6: with an empty target set, or any of repository URL, username,
credential or repository path missing, `perform_backup` returns one of
the precondition errors and performs no external action at all — in
particular the Executor is never invoked. -/
theorem perform_backup_preconditions (e : Env) (c : Config)
    (h : c.backup_paths = [] ∨ c.gitea_url = none ∨ c.gitea_username = none ∨
      c.gitea_password = none ∨ c.gitea_repo = none) :
    (∃ m, (perform_backup e c).1 = .error m ∧ m ∈ preconditionMsgs) ∧
    (perform_backup e c).2.trace = [] := by
  by_cases hemp : c.backup_paths.isEmpty
  · have hpb : perform_backup e c =
        (.error "Нет путей для бэкапа! Сначала добавьте файлы/директории.",
         ({ trace := [], cfg := c, archives := [] } : PBState)) := by
      unfold perform_backup
      rw [if_pos hemp]
    exact ⟨⟨_, by rw [hpb], by simp [preconditionMsgs]⟩, by rw [hpb]⟩
  · have hne : ¬c.backup_paths = [] := by
      intro hh
      exact hemp (by simp [hh])
    have h4 : c.gitea_url = none ∨ c.gitea_username = none ∨
        c.gitea_password = none ∨ c.gitea_repo = none := by
      rcases h with h | h
      · exact absurd h hne
      · exact h
    obtain ⟨m, hm, hmem⟩ := repoUrlOf_missing c h4
    have hpb : perform_backup e c =
        (.error m, ({ trace := [], cfg := c, archives := [] } : PBState)) := by
      unfold perform_backup
      rw [if_neg hemp, hm]
    exact ⟨⟨m, by rw [hpb], hmem⟩, by rw [hpb]⟩

theorem perform_backup_preconditions_witness :
    cfgNoPaths.backup_paths = [] ∧
    (∃ m, (perform_backup envOk cfgNoPaths).1 = .error m ∧
      m ∈ preconditionMsgs) ∧
    (perform_backup envOk cfgNoPaths).2.trace = [] :=
  ⟨rfl, (perform_backup_preconditions envOk cfgNoPaths (Or.inl rfl)).1,
    (perform_backup_preconditions envOk cfgNoPaths (Or.inl rfl)).2⟩

/-- C7: the exclusion-policy write is idempotent — running it twice
without removing the file in between leaves the first-written contents
unchanged, and a pre-existing file is never overwritten. -/
theorem gitignore_write_idempotent :
    (∀ file : Option String,
      gitignoreWrite (gitignoreWrite file) = gitignoreWrite file) ∧
    (∀ cont : String, gitignoreWrite (some cont) = some cont) := by
  constructor
  · intro file
    cases file <;> simp [gitignoreWrite, create_gitignore]
  · intro cont
    simp [gitignoreWrite]

theorem runCmds_cons_trace (e : Env) (b : Nat) (st : PBState) (c0 : String)
    (rest : List String) :
    ∃ t, (runCmds e b st (c0 :: rest)).2.trace =
      st.trace ++ Action.execCmd c0 b :: t := by
  simp only [runCmds]
  cases hr : (execStep e c0 b st).1 with
  | ok u =>
    obtain ⟨t, ht⟩ := runCmds_mono e b rest (execStep e c0 b st).2
    exact ⟨t, by rw [ht]; simp [execStep]⟩
  | error m =>
    exact ⟨[], by simp [execStep]⟩

theorem perform_tail_mono (e : Env) (c : Config) (dir b folder curDir : String) :
    TraceMono (fun st4 =>
      seqPB (gitignoreGuardStep e dir st4) fun st5 =>
      seqPB (fsCreateStep e curDir st5) fun st6 =>
      seqPB (archiveLoop e curDir 0 st6 c.backup_paths) fun st7 =>
      seqPB (fsWriteStep e (curDir ++ "/backup_info.txt") st7) fun st8 =>
      seqPB (runCmds e 3 st8
        (finalCmdsList dir b (commitMsgOf e folder st8.archives))) fun st9 =>
      seqPB (fsRemoveStep e dir st9) fun st10 =>
      seqPB (saveStep e
        { st10 with cfg := { st10.cfg with last_backup := some e.stampMsk } })
        fun st12 => (.ok (), st12)) := by
  refine traceMono_seq _ _ (gitignoreGuardStep_mono e dir) ?_
  refine traceMono_seq _ _ (fsCreateStep_mono e curDir) ?_
  refine traceMono_seq _ _ (archiveLoop_mono e curDir c.backup_paths 0) ?_
  refine traceMono_seq _ _ (fsWriteStep_mono e _) ?_
  refine traceMono_seq _ _
    (fun st => runCmds_mono e 3
      (finalCmdsList dir b (commitMsgOf e folder st.archives)) st) ?_
  refine traceMono_seq _ _ (fsRemoveStep_mono e dir) ?_
  refine traceMono_seq _ _ (fun st => ⟨[Action.cfgSave], rfl⟩) ?_
  exact fun st => ⟨[], by simp⟩

/-- C9: the branch probe is executed through the Executor with a retry
budget of exactly 2, immediately after the nine initialization commands;
the resolved branch (`main` when the probe succeeds, `master` otherwise)
is substituted into the fetch command that follows, and — on a successful
run — into the final push command. -/
theorem branch_resolution (e : Env) (c : Config) (u url : String)
    (hemp : c.backup_paths.isEmpty = false)
    (husr : c.gitea_username = some u)
    (hurl : repoUrlOf c = .ok url)
    (hcd : e.createDirAll (stagingDir e) = .ok ())
    (hcfg : ∀ cmd ∈ gitConfigCmds (stagingDir e) u url,
      (execute_command_with_retry cmd 3 (e.spawn cmd)).1 = .ok ()) :
    (∃ t, (perform_backup e c).2.trace =
      Action.fsCreateDir (stagingDir e) ::
        ((gitConfigCmds (stagingDir e) u url).map (fun cm => Action.execCmd cm 3) ++
          Action.execCmd (probeCmd (stagingDir e)) 2 ::
          Action.execCmd ("cd " ++ stagingDir e ++ " && git fetch origin " ++
            resolvedBranch e (stagingDir e) ++ " || true") 3 :: t)) ∧
    ((perform_backup e c).1 = .ok () →
      Action.execCmd ("cd " ++ stagingDir e ++ " && git push origin " ++
        resolvedBranch e (stagingDir e)) 3 ∈ (perform_backup e c).2.trace) := by
  refine ⟨?_, fun h => ((perform_backup_master e c).1 h).2.2.2.2⟩
  have hpb : perform_backup e c =
      seqPB (fsCreateStep e (stagingDir e) { trace := [], cfg := c, archives := [] })
        fun st1 =>
      seqPB (runCmds e 3 st1 (gitConfigCmds (stagingDir e) (c.gitea_username.getD "") url))
        fun st2 =>
      seqPB (runCmds e 3 ((execStep e (probeCmd (stagingDir e)) 2 st2).2)
          (syncCmdsList (stagingDir e) (resolvedBranch e (stagingDir e)))) fun st4 =>
      seqPB (gitignoreGuardStep e (stagingDir e) st4) fun st5 =>
      seqPB (fsCreateStep e (stagingDir e ++ "/" ++ backupFolderName e c) st5) fun st6 =>
      seqPB (archiveLoop e (stagingDir e ++ "/" ++ backupFolderName e c) 0 st6
        c.backup_paths) fun st7 =>
      seqPB (fsWriteStep e (stagingDir e ++ "/" ++ backupFolderName e c ++
        "/backup_info.txt") st7) fun st8 =>
      seqPB (runCmds e 3 st8 (finalCmdsList (stagingDir e)
        (resolvedBranch e (stagingDir e))
        (commitMsgOf e (backupFolderName e c) st8.archives))) fun st9 =>
      seqPB (fsRemoveStep e (stagingDir e) st9) fun st10 =>
      seqPB (saveStep e
        { st10 with cfg := { st10.cfg with last_backup := some e.stampMsk } })
        fun st12 => (.ok (), st12) := by
    unfold perform_backup
    rw [if_neg (by simp [hemp]), hurl]
  have hA1 : fsCreateStep e (stagingDir e) { trace := [], cfg := c, archives := [] } =
      (.ok (),
        { trace := [Action.fsCreateDir (stagingDir e)], cfg := c,
          archives := [] }) := by
    simp [fsCreateStep, hcd]
  simp only [hA1, seqPB_ok] at hpb
  rw [husr] at hpb
  simp only [Option.getD_some] at hpb
  have hA2 := runCmds_ok_trace e 3 (gitConfigCmds (stagingDir e) u url)
    { trace := [Action.fsCreateDir (stagingDir e)], cfg := c, archives := [] } hcfg
  simp only [hA2, seqPB_ok] at hpb
  simp only [syncCmdsList] at hpb
  rw [hpb]
  obtain ⟨t0, ht0⟩ := runCmds_cons_trace e 3
    ((execStep e (probeCmd (stagingDir e)) 2
        { trace := [Action.fsCreateDir (stagingDir e)] ++
            (gitConfigCmds (stagingDir e) u url).map
              (fun c0 => Action.execCmd c0 3),
          cfg := c, archives := [] }).2)
    ("cd " ++ stagingDir e ++ " && git fetch origin " ++
      resolvedBranch e (stagingDir e) ++ " || true")
    ["cd " ++ stagingDir e ++ " && (git checkout " ++
        resolvedBranch e (stagingDir e) ++ " || git checkout -b " ++
        resolvedBranch e (stagingDir e) ++ ")",
      "cd " ++ stagingDir e ++ " && git pull origin " ++
        resolvedBranch e (stagingDir e) ++ " --no-edit || true"]
  obtain ⟨t1, ht1⟩ := seqPB_trace_extends
    (runCmds e 3 ((execStep e (probeCmd (stagingDir e)) 2
        { trace := [Action.fsCreateDir (stagingDir e)] ++
            (gitConfigCmds (stagingDir e) u url).map
              (fun c0 => Action.execCmd c0 3),
          cfg := c, archives := [] }).2)
      ["cd " ++ stagingDir e ++ " && git fetch origin " ++
          resolvedBranch e (stagingDir e) ++ " || true",
        "cd " ++ stagingDir e ++ " && (git checkout " ++
          resolvedBranch e (stagingDir e) ++ " || git checkout -b " ++
          resolvedBranch e (stagingDir e) ++ ")",
        "cd " ++ stagingDir e ++ " && git pull origin " ++
          resolvedBranch e (stagingDir e) ++ " --no-edit || true"]) _
    (perform_tail_mono e c (stagingDir e) (resolvedBranch e (stagingDir e))
      (backupFolderName e c) (stagingDir e ++ "/" ++ backupFolderName e c))
  refine ⟨t0 ++ t1, ?_⟩
  rw [ht1, ht0]
  simp [execStep]

theorem branch_resolution_witness :
    (∃ t, (perform_backup envOk cfgFull).2.trace =
      Action.fsCreateDir (stagingDir envOk) ::
        ((gitConfigCmds (stagingDir envOk) "alex"
            "https://alex:pw@git.example.com/alex/backup.git").map
          (fun cm => Action.execCmd cm 3) ++
          Action.execCmd (probeCmd (stagingDir envOk)) 2 ::
          Action.execCmd ("cd " ++ stagingDir envOk ++ " && git fetch origin " ++
            resolvedBranch envOk (stagingDir envOk) ++ " || true") 3 :: t)) ∧
    Action.execCmd ("cd " ++ stagingDir envOk ++ " && git push origin " ++
      resolvedBranch envOk (stagingDir envOk)) 3 ∈
      (perform_backup envOk cfgFull).2.trace := by
  have h := branch_resolution envOk cfgFull "alex"
    "https://alex:pw@git.example.com/alex/backup.git" rfl rfl (by rfl) rfl
    (fun cmd hm =>
      exec_ok_of_spawn_ok cmd (envOk.spawn cmd) 3 (by omega)
        (fun k => ⟨"", "", rfl⟩))
  exact ⟨h.1, h.2 (by rfl)⟩

theorem archival_names_witness :
    (archiveLoop envArch "/tmp/backup_S/d" 0
        { trace := [], cfg := cfgFull, archives := [] }
        ["/etc/app.conf", "/var/www"]).1 = .ok () ∧
    (archiveLoop envArch "/tmp/backup_S/d" 0
        { trace := [], cfg := cfgFull, archives := [] }
        ["/etc/app.conf", "/var/www"]).2.archives.map Prod.fst =
      ["file_1_app.conf.tar.gz", "dir_2_www.tar.gz"] := by
  have h := archival_names envArch "/tmp/backup_S/d" ["/etc/app.conf", "/var/www"]
    (fun cmd k => ⟨"", "", rfl⟩)
    (fun p hp => by
      have hp' : (p == "/etc/app.conf") = true := hp
      show (if p == "/etc/app.conf" then some "app.conf"
        else if p == "/var/www" then some "www" else none).isSome = true
      rw [if_pos hp']
      rfl)
    0 { trace := [], cfg := cfgFull, archives := [] }
  refine ⟨h.1, ?_⟩
  rw [h.2]
  rfl

end OBT
